import Mathlib

/-!
Shallow embedding of `crates/attestation/src/measurements.rs` from the `mpc`
repository: the TEE measurement baseline types (`Measurements`,
`FullMeasurements`), their hex counterparts (`MeasurementsHex`,
`FullMeasurementsHex` over `HexBytes<N>`), the conversions between them, the
error taxonomy `MeasurementsError`, and the extraction of measurements from a
verified DCAP quote report (`TryFrom<VerifiedReport> for Measurements`).

Rust `u8` is embedded as `Fin 256`; a fixed `[u8; N]` array as a list of bytes
with a length proof (`ByteArr N`); Rust `String` field names stay `String`,
and hex text is handled as `List Char` (a Rust `String` is built from it with
`String.mk` where an error value carries the raw string). Fallible Rust code
returns `Except`.
-/

/-- A byte, Rust `u8`. -/
abbrev Byte : Type := Fin 256

/-- A fixed-length byte array, Rust `[u8; n]`. -/
abbrev ByteArr (n : Nat) : Type := { l : List Byte // l.length = n }

/-- The all-zero byte array, Rust `[0; n]`. -/
def ByteArr.zero (n : Nat) : ByteArr n := ⟨List.replicate n 0, List.length_replicate _ _⟩

/-- Embeds `Measurements` (measurements.rs lines 16-31): the four 48-byte
measurement registers, in the source's field order mrtd, rtmr0, rtmr1, rtmr2. -/
structure Measurements where
  mrtd : ByteArr 48
  rtmr0 : ByteArr 48
  rtmr1 : ByteArr 48
  rtmr2 : ByteArr 48
  deriving DecidableEq

/-- Embeds `impl Default for Measurements` (lines 33-42): every field is
`[0; 48]`. -/
def Measurements.default : Measurements :=
  { mrtd := ByteArr.zero 48
    rtmr0 := ByteArr.zero 48
    rtmr1 := ByteArr.zero 48
    rtmr2 := ByteArr.zero 48 }

/-- Embeds `FullMeasurements` (lines 46-56): the four registers plus the
48-byte key-provider event digest and the 32-byte app_compose hash payload. -/
structure FullMeasurements where
  rtmrs : Measurements
  key_provider_event_digest : ByteArr 48
  app_compose_hash_payload : ByteArr 32
  deriving DecidableEq

/-- Modelled from the spec: `HexBytes<N>` lives in `crate::tcb_info`, which is
not part of the given sources. Per spec section 4.3 the hex field types are
"backed by HexCodec-managed strings internally stored as fixed-size byte
buffers", i.e. `HexBytes<N>` wraps an `[u8; N]` (the source confirms this
shape: `HexBytes::from([0; 48])` and deref `*hex.mrtd : [u8; 48]`). -/
structure HexBytes (n : Nat) where
  bytes : ByteArr n
  deriving DecidableEq

/-- Rust `HexBytes::from(arr)` (`from` is a Lean keyword, hence `ofBytes`). -/
def HexBytes.ofBytes (b : ByteArr n) : HexBytes n := ⟨b⟩

/-- Embeds `MeasurementsHex` (lines 73-84), field order mrtd, rtmr0, rtmr1,
rtmr2 as declared in the source. -/
structure MeasurementsHex where
  mrtd : HexBytes 48
  rtmr0 : HexBytes 48
  rtmr1 : HexBytes 48
  rtmr2 : HexBytes 48
  deriving DecidableEq

/-- Embeds `impl Default for MeasurementsHex` (lines 86-95). -/
def MeasurementsHex.default : MeasurementsHex :=
  { mrtd := HexBytes.ofBytes (ByteArr.zero 48)
    rtmr0 := HexBytes.ofBytes (ByteArr.zero 48)
    rtmr1 := HexBytes.ofBytes (ByteArr.zero 48)
    rtmr2 := HexBytes.ofBytes (ByteArr.zero 48) }

/-- Embeds `impl From<MeasurementsHex> for Measurements` (lines 97-106): each
field is the dereferenced (unwrapped) byte buffer of the hex field. -/
def Measurements.ofHex (hex : MeasurementsHex) : Measurements :=
  { mrtd := hex.mrtd.bytes
    rtmr0 := hex.rtmr0.bytes
    rtmr1 := hex.rtmr1.bytes
    rtmr2 := hex.rtmr2.bytes }

/-- Embeds `impl From<Measurements> for MeasurementsHex` (lines 108-117). -/
def MeasurementsHex.ofMeasurements (measurements : Measurements) : MeasurementsHex :=
  { mrtd := HexBytes.ofBytes measurements.mrtd
    rtmr0 := HexBytes.ofBytes measurements.rtmr0
    rtmr1 := HexBytes.ofBytes measurements.rtmr1
    rtmr2 := HexBytes.ofBytes measurements.rtmr2 }

/-- Embeds `FullMeasurementsHex` (lines 134-142). -/
structure FullMeasurementsHex where
  rtmrs : MeasurementsHex
  key_provider_event_digest : HexBytes 48
  app_compose_hash_payload : HexBytes 32
  deriving DecidableEq

/-- Embeds `impl Default for FullMeasurementsHex` (lines 144-152). -/
def FullMeasurementsHex.default : FullMeasurementsHex :=
  { rtmrs := MeasurementsHex.default
    key_provider_event_digest := HexBytes.ofBytes (ByteArr.zero 48)
    app_compose_hash_payload := HexBytes.ofBytes (ByteArr.zero 32) }

/-- Embeds `impl From<FullMeasurementsHex> for FullMeasurements`
(lines 154-162). -/
def FullMeasurements.ofHex (hex : FullMeasurementsHex) : FullMeasurements :=
  { rtmrs := Measurements.ofHex hex.rtmrs
    key_provider_event_digest := hex.key_provider_event_digest.bytes
    app_compose_hash_payload := hex.app_compose_hash_payload.bytes }

/-- Embeds `impl From<FullMeasurements> for FullMeasurementsHex`
(lines 164-172). -/
def FullMeasurementsHex.ofFull (measurements : FullMeasurements) : FullMeasurementsHex :=
  { rtmrs := MeasurementsHex.ofMeasurements measurements.rtmrs
    key_provider_event_digest := HexBytes.ofBytes measurements.key_provider_event_digest
    app_compose_hash_payload := HexBytes.ofBytes measurements.app_compose_hash_payload }

/-- Embeds `MeasurementsError` (lines 174-184). `InvalidHexValue` carries the
field name and the offending raw string; `InvalidLength` carries the field
name and the actual character count. -/
inductive MeasurementsError where
  | noTd10Report
  | invalidTcbInfo
  | invalidHexValue (field : String) (value : String)
  | invalidLength (field : String) (length : Nat)
  deriving DecidableEq

/-- The TD10 report body of the external collaborator crate `dcap_qvl`,
modelled per spec section 6: a body that "exposes four 48-byte fields
(rt_mr0, rt_mr1, rt_mr2, mr_td)". A few further TD10 fields are kept so the
extraction is a genuine projection, not an identity. -/
structure TDReport10 where
  mr_seam : ByteArr 48
  mr_td : ByteArr 48
  mr_config_id : ByteArr 48
  rt_mr0 : ByteArr 48
  rt_mr1 : ByteArr 48
  rt_mr2 : ByteArr 48
  rt_mr3 : ByteArr 48
  report_data : ByteArr 64
  deriving DecidableEq

/-- The report body of `dcap_qvl::verify::VerifiedReport`, modelled per spec
section 9: "a tagged union with an explicit discriminant check"; only the
TD10 variant carries the measurement block this core reads. -/
inductive Report where
  | sgxEnclave
  | td10 (r : TDReport10)
  | td15
  deriving DecidableEq

/-- Rust `Report::as_td10`: the discriminant check selecting the TD10 body. -/
def Report.as_td10 : Report → Option TDReport10
  | .td10 r => some r
  | _ => none

/-- The collaborator type `dcap_qvl::verify::VerifiedReport`: an already
verified quote report; only its `report` body is read by this core. -/
structure VerifiedReport where
  status : String
  advisory_ids : List String
  report : Report

/-- Embeds `impl TryFrom<dcap_qvl::verify::VerifiedReport> for Measurements`
(lines 186-201): select the TD10 body via `as_td10` (else `NoTd10Report`),
then copy rt_mr0/rt_mr1/rt_mr2/mr_td verbatim into the struct. -/
def Measurements.tryFromVerifiedReport (verified_report : VerifiedReport) :
    Except MeasurementsError Measurements :=
  match verified_report.report.as_td10 with
  | none => Except.error MeasurementsError.noTd10Report
  | some td10 =>
      Except.ok
        { rtmr0 := td10.rt_mr0
          rtmr1 := td10.rt_mr1
          rtmr2 := td10.rt_mr2
          mrtd := td10.mr_td }

/-- Modelled from the spec: the lowercase hex digit alphabet of `HexCodec`
(`crate::tcb_info`, not in the given sources), spec section 4.1: canonical
output is lowercase. -/
def lowerHexDigits : List Char := "0123456789abcdef".data

/-- Modelled from the spec: the uppercase hex digit alphabet, accepted on
decode (spec section 4.1: case-insensitive accepted on input). -/
def upperHexDigits : List Char := "0123456789ABCDEF".data

/-- Modelled from the spec: the lowercase hex character of a nibble value. -/
def toHexDigit (v : Fin 16) : Char :=
  lowerHexDigits.get ⟨v.val, by simp [lowerHexDigits]⟩

/-- Modelled from the spec: the nibble value of a hex character, lowercase or
uppercase both accepted; `none` on any character that is not a hex digit. -/
def fromHexDigit (c : Char) : Option (Fin 16) :=
  if c = '0' then some 0
  else if c = '1' then some 1
  else if c = '2' then some 2
  else if c = '3' then some 3
  else if c = '4' then some 4
  else if c = '5' then some 5
  else if c = '6' then some 6
  else if c = '7' then some 7
  else if c = '8' then some 8
  else if c = '9' then some 9
  else if c = 'a' ∨ c = 'A' then some 10
  else if c = 'b' ∨ c = 'B' then some 11
  else if c = 'c' ∨ c = 'C' then some 12
  else if c = 'd' ∨ c = 'D' then some 13
  else if c = 'e' ∨ c = 'E' then some 14
  else if c = 'f' ∨ c = 'F' then some 15
  else none

/-- Modelled from the spec: `HexCodec.encode` on one byte, zero-padded to two
lowercase hex characters (high nibble first). -/
def encodeByte (b : Byte) : List Char :=
  [toHexDigit ⟨b.val / 16, by omega⟩, toHexDigit ⟨b.val % 16, by omega⟩]

/-- Modelled from the spec: `HexCodec.encode` on a byte sequence, the
concatenation of the per-byte encodings. -/
def hexEncodeList : List Byte → List Char
  | [] => []
  | b :: rest => encodeByte b ++ hexEncodeList rest

/-- Modelled from the spec: `HexCodec.encode` on a fixed-length array. -/
def hexEncode (b : ByteArr n) : List Char := hexEncodeList b.val

/-- Modelled from the spec: the character-level core of `HexCodec.decode`,
consuming two hex characters per byte; `none` when a character is not a hex
digit or the length is odd. -/
def decodePairs : List Char → Option (List Byte)
  | [] => some []
  | [_] => none
  | c1 :: c2 :: rest =>
      match fromHexDigit c1, fromHexDigit c2, decodePairs rest with
      | some hi, some lo, some bytes =>
          some ((⟨16 * hi.val + lo.val, by omega⟩ : Byte) :: bytes)
      | _, _, _ => none

/-- Modelled from the spec: `HexCodec<N>.decode` (spec section 4.1). Fails
with `InvalidLength(field, char_count)` when the length is not `2N`, with
`InvalidHexValue(field, raw_string)` when a character is not a hex digit, and
otherwise yields the decoded bytes. The inner length re-check is provably
redundant (`decodePairs` halves the length) and its error branch is dead. -/
def hexDecode (field : String) (n : Nat) (s : List Char) :
    Except MeasurementsError (ByteArr n) :=
  if s.length = 2 * n then
    match decodePairs s with
    | some bytes =>
        if h : bytes.length = n then Except.ok ⟨bytes, h⟩
        else Except.error (MeasurementsError.invalidHexValue field (String.mk s))
    | none => Except.error (MeasurementsError.invalidHexValue field (String.mk s))
  else Except.error (MeasurementsError.invalidLength field s.length)

/-- Rust `u8::cmp`. -/
def byteCompare (a b : Byte) : Ordering :=
  if a.val < b.val then Ordering.lt
  else if b.val < a.val then Ordering.gt
  else Ordering.eq

/-- Rust `<[u8]>::cmp`: lexicographic comparison of byte sequences (on
equal-length arrays this is the first-difference pointwise comparison). -/
def listByteCompare : List Byte → List Byte → Ordering
  | [], [] => Ordering.eq
  | [], _ :: _ => Ordering.lt
  | _ :: _, [] => Ordering.gt
  | x :: xs, y :: ys => (byteCompare x y).then (listByteCompare xs ys)

/-- Modelled from the spec: the derived `Ord` of `HexBytes<N>`
(`crate::tcb_info`, not in the given sources) — spec section 3: "Ordering is
defined lexicographically"; a newtype over `[u8; N]` compares its buffers. -/
def HexBytes.cmp (a b : HexBytes n) : Ordering :=
  listByteCompare a.bytes.val b.bytes.val

/-- Embeds the derived `Ord` of `MeasurementsHex` (line 66 `#[derive(..,
PartialOrd, Ord, ..)]`): Rust derives lexicographic comparison over the
fields in declaration order mrtd, rtmr0, rtmr1, rtmr2. -/
def MeasurementsHex.cmp (a b : MeasurementsHex) : Ordering :=
  (HexBytes.cmp a.mrtd b.mrtd).then
    ((HexBytes.cmp a.rtmr0 b.rtmr0).then
      ((HexBytes.cmp a.rtmr1 b.rtmr1).then (HexBytes.cmp a.rtmr2 b.rtmr2)))

/-- Rust `<` on `MeasurementsHex` (from the derived `PartialOrd`/`Ord`). -/
def MeasurementsHex.ltOrd (a b : MeasurementsHex) : Prop :=
  MeasurementsHex.cmp a b = Ordering.lt

/-- The source conversion `impl From<MeasurementsHex> for Measurements`
expressed with an error channel: Rust's blanket
`impl TryFrom<T> for U where U: From<T>` is `Ok(From::from(v))` with
uninhabited error type, so the only fallible reading of the source's
hex-to-binary conversion always returns `Ok`. -/
def Measurements.tryFromHex (hex : MeasurementsHex) :
    Except MeasurementsError Measurements :=
  Except.ok (Measurements.ofHex hex)

/-- Stated from the spec's words (spec section 4.3: conversion "fallible (for
hex→binary, surfacing HexCodec errors)"): the hex-to-binary conversion maps
some `MeasurementsHex` to an error rather than a `Measurements` value. This
is the fallibility assertion of the claim, to be compared with the source
conversion `Measurements.ofHex` / `Measurements.tryFromHex`. -/
def MeasurementsHexToBinaryCanFail : Prop :=
  ∃ (hex : MeasurementsHex) (e : MeasurementsError),
    Measurements.tryFromHex hex = Except.error e

/-- A concrete byte array filled with one byte value, for concrete checks. -/
def fillArr (k : Byte) (n : Nat) : ByteArr n :=
  ⟨List.replicate n k, List.length_replicate _ _⟩

/-- A concrete TD10 report body with pairwise distinct register values. -/
def sampleTd10 : TDReport10 :=
  { mr_seam := fillArr 1 48
    mr_td := fillArr 2 48
    mr_config_id := fillArr 3 48
    rt_mr0 := fillArr 4 48
    rt_mr1 := fillArr 5 48
    rt_mr2 := fillArr 6 48
    rt_mr3 := fillArr 7 48
    report_data := fillArr 8 64 }

/-- A concrete verified report whose body is TD10. -/
def sampleTd10Report : VerifiedReport :=
  { status := "UpToDate", advisory_ids := [], report := Report.td10 sampleTd10 }

/-- A concrete verified report whose body is an SGX enclave report, not TD10. -/
def sampleSgxReport : VerifiedReport :=
  { status := "UpToDate", advisory_ids := [], report := Report.sgxEnclave }

/-- Decoding inverts encoding on a single hex digit. -/
theorem fromHexDigit_toHexDigit : ∀ v : Fin 16, fromHexDigit (toHexDigit v) = some v := by
  decide

/-- Encoded digits are lowercase hex characters. -/
theorem toHexDigit_mem_lower : ∀ v : Fin 16, toHexDigit v ∈ lowerHexDigits := by
  decide

/-- A character outside both hex alphabets does not decode. -/
theorem fromHexDigit_eq_none_of_not_mem (c : Char)
    (hc : c ∉ lowerHexDigits ++ upperHexDigits) : fromHexDigit c = none := by
  simp only [List.mem_append, lowerHexDigits, upperHexDigits, List.mem_cons,
    List.not_mem_nil, or_false, not_or] at hc
  obtain ⟨⟨e0, e1, e2, e3, e4, e5, e6, e7, e8, e9, ea, eb, ec, ed, ee, ef⟩,
    ⟨_, _, _, _, _, _, _, _, _, _, uA, uB, uC, uD, uE, uF⟩⟩ := hc
  simp [fromHexDigit, e0, e1, e2, e3, e4, e5, e6, e7, e8, e9, ea, eb, ec, ed, ee, ef,
    uA, uB, uC, uD, uE, uF]

/-- Any character a digit decodes from re-encodes to its lowercase form. -/
theorem toHexDigit_eq_toLower (c : Char) (v : Fin 16) (h : fromHexDigit c = some v) :
    toHexDigit v = Char.toLower c := by
  by_cases hc : c ∈ lowerHexDigits ++ upperHexDigits
  · have hall : ∀ c' ∈ lowerHexDigits ++ upperHexDigits, ∀ w : Fin 16,
        fromHexDigit c' = some w → toHexDigit w = Char.toLower c' := by decide
    exact hall c hc v h
  · rw [fromHexDigit_eq_none_of_not_mem c hc] at h
    cases h

/-- A decoded character sequence has twice as many characters as bytes. -/
theorem decodePairs_length : ∀ (s : List Char) (bytes : List Byte),
    decodePairs s = some bytes → s.length = 2 * bytes.length
  | [], bytes, h => by
      simp only [decodePairs, Option.some.injEq] at h
      subst h; rfl
  | [_], bytes, h => by simp [decodePairs] at h
  | c1 :: c2 :: rest, bytes, h => by
      cases hfd1 : fromHexDigit c1 with
      | none => simp [decodePairs, hfd1] at h
      | some hi =>
        cases hfd2 : fromHexDigit c2 with
        | none => simp [decodePairs, hfd1, hfd2] at h
        | some lo =>
          cases hdp : decodePairs rest with
          | none => simp [decodePairs, hfd1, hfd2, hdp] at h
          | some tail =>
            have ih := decodePairs_length rest tail hdp
            simp only [decodePairs, hfd1, hfd2, hdp, Option.some.injEq] at h
            subst h
            simp only [List.length_cons]
            omega

/-- Decoding inverts encoding on byte lists. -/
theorem decodePairs_hexEncodeList : ∀ (l : List Byte),
    decodePairs (hexEncodeList l) = some l
  | [] => rfl
  | b :: rest => by
      have ih := decodePairs_hexEncodeList rest
      simp only [hexEncodeList, encodeByte, List.cons_append, List.nil_append,
        List.append, decodePairs, fromHexDigit_toHexDigit, ih, Option.some.injEq,
        List.cons.injEq]
      refine ⟨Fin.ext ?_, trivial⟩
      show 16 * (b.val / 16) + b.val % 16 = b.val
      omega

/-- Encoding yields two characters per byte. -/
theorem hexEncodeList_length : ∀ (l : List Byte),
    (hexEncodeList l).length = 2 * l.length
  | [] => rfl
  | b :: rest => by
      have ih := hexEncodeList_length rest
      simp only [hexEncodeList, encodeByte, List.length_append, List.length_cons,
        List.length_nil, List.length_cons, ih]
      omega

/-- Every character an encoding produces is a lowercase hex digit. -/
theorem hexEncodeList_mem_lower : ∀ (l : List Byte), ∀ c ∈ hexEncodeList l, c ∈ lowerHexDigits
  | [] => by simp [hexEncodeList]
  | b :: rest => by
      have ih := hexEncodeList_mem_lower rest
      intro c hc
      simp only [hexEncodeList, encodeByte, List.cons_append, List.nil_append,
        List.mem_cons] at hc
      rcases hc with rfl | rfl | hc
      · exact toHexDigit_mem_lower _
      · exact toHexDigit_mem_lower _
      · exact ih c hc

/-- Re-encoding a decoded character sequence lowercases it. -/
theorem hexEncodeList_decodePairs : ∀ (s : List Char) (bytes : List Byte),
    decodePairs s = some bytes → hexEncodeList bytes = s.map Char.toLower
  | [], bytes, h => by
      simp only [decodePairs, Option.some.injEq] at h
      subst h; rfl
  | [_], bytes, h => by simp [decodePairs] at h
  | c1 :: c2 :: rest, bytes, h => by
      cases hfd1 : fromHexDigit c1 with
      | none => simp [decodePairs, hfd1] at h
      | some hi =>
        cases hfd2 : fromHexDigit c2 with
        | none => simp [decodePairs, hfd1, hfd2] at h
        | some lo =>
          cases hdp : decodePairs rest with
          | none => simp [decodePairs, hfd1, hfd2, hdp] at h
          | some tail =>
            have ih := hexEncodeList_decodePairs rest tail hdp
            simp only [decodePairs, hfd1, hfd2, hdp, Option.some.injEq] at h
            subst h
            have hlo := lo.isLt
            have hhiv : (16 * hi.val + lo.val) / 16 = hi.val := by omega
            have hlov : (16 * hi.val + lo.val) % 16 = lo.val := by omega
            simp only [hexEncodeList, encodeByte, List.map_cons, List.cons_append,
              List.nil_append, ih, List.cons.injEq]
            refine ⟨?_, ?_, trivial⟩
            · rw [show (⟨(16 * hi.val + lo.val : Nat) / 16, by omega⟩ : Fin 16) = hi from
                Fin.ext hhiv]
              exact toHexDigit_eq_toLower c1 hi hfd1
            · rw [show (⟨(16 * hi.val + lo.val : Nat) % 16, by omega⟩ : Fin 16) = lo from
                Fin.ext hlov]
              exact toHexDigit_eq_toLower c2 lo hfd2

/-- A sequence containing a non-hex character does not decode. -/
theorem decodePairs_eq_none_of_bad : ∀ (s : List Char),
    (∃ c ∈ s, fromHexDigit c = none) → decodePairs s = none
  | [], h => by rcases h with ⟨c, hc, _⟩; cases hc
  | [_], _ => rfl
  | c1 :: c2 :: rest, h => by
      cases hfd1 : fromHexDigit c1 with
      | none => simp [decodePairs, hfd1]
      | some hi =>
        cases hfd2 : fromHexDigit c2 with
        | none => simp [decodePairs, hfd1, hfd2]
        | some lo =>
          rcases h with ⟨c, hc, hbad⟩
          simp only [List.mem_cons] at hc
          rcases hc with rfl | rfl | hc
          · rw [hfd1] at hbad; cases hbad
          · rw [hfd2] at hbad; cases hbad
          · have hrest := decodePairs_eq_none_of_bad rest ⟨c, hc, hbad⟩
            simp [decodePairs, hfd1, hfd2, hrest]

/-- Computation rule: decoding with a wrong character count. -/
theorem hexDecode_of_badlen (field : String) (n : Nat) (s : List Char)
    (hlen : s.length ≠ 2 * n) :
    hexDecode field n s = Except.error (MeasurementsError.invalidLength field s.length) := by
  simp [hexDecode, hlen]

/-- Computation rule: decoding with the right count but failing pair decode. -/
theorem hexDecode_of_none (field : String) (n : Nat) (s : List Char)
    (hlen : s.length = 2 * n) (hdp : decodePairs s = none) :
    hexDecode field n s =
      Except.error (MeasurementsError.invalidHexValue field (String.mk s)) := by
  simp [hexDecode, hlen, hdp]

/-- Computation rule: decoding with the right count and successful pair decode. -/
theorem hexDecode_of_some (field : String) (n : Nat) (s : List Char) (bytes : List Byte)
    (hlen : s.length = 2 * n) (hdp : decodePairs s = some bytes) (hbl : bytes.length = n) :
    hexDecode field n s = Except.ok ⟨bytes, hbl⟩ := by
  simp [hexDecode, hlen, hdp, hbl]

/-- Decoding inverts encoding at any width. -/
theorem hexDecode_hexEncode (field : String) (n : Nat) (b : ByteArr n) :
    hexDecode field n (hexEncode b) = Except.ok b := by
  have hlen : (hexEncode b).length = 2 * n := by
    rw [hexEncode, hexEncodeList_length, b.property]
  have hdp : decodePairs (hexEncode b) = some b.val := decodePairs_hexEncodeList b.val
  rw [hexDecode_of_some field n (hexEncode b) b.val hlen hdp b.property]

/-- C5: hex-decoding the hex-encoding of a 48- or 32-byte array gives the
array back; encoding is total with exactly 2N lowercase hex characters; and
encoding the decode of a valid string of the right length yields the string's
lowercase normalization. -/
theorem hex_roundtrip_laws :
    (∀ (field : String) (b : ByteArr 48), hexDecode field 48 (hexEncode b) = Except.ok b) ∧
    (∀ (field : String) (b : ByteArr 32), hexDecode field 32 (hexEncode b) = Except.ok b) ∧
    (∀ (n : Nat) (b : ByteArr n),
      (hexEncode b).length = 2 * n ∧ ∀ c ∈ hexEncode b, c ∈ lowerHexDigits) ∧
    (∀ (field : String) (n : Nat) (s : List Char) (b : ByteArr n),
      hexDecode field n s = Except.ok b → hexEncode b = s.map Char.toLower) := by
  refine ⟨fun field b => hexDecode_hexEncode field 48 b,
          fun field b => hexDecode_hexEncode field 32 b,
          fun n b => ⟨by rw [hexEncode, hexEncodeList_length, b.property],
                      fun c hc => hexEncodeList_mem_lower b.val c hc⟩,
          ?_⟩
  intro field n s b h
  by_cases hlen : s.length = 2 * n
  · cases hdp : decodePairs s with
    | none => rw [hexDecode_of_none field n s hlen hdp] at h; cases h
    | some bytes =>
        have hbl : bytes.length = n := by
          have := decodePairs_length s bytes hdp
          omega
        rw [hexDecode_of_some field n s bytes hlen hdp hbl] at h
        cases h
        exact hexEncodeList_decodePairs s bytes hdp
  · rw [hexDecode_of_badlen field n s hlen] at h
    cases h

/-- Witness for C5: decoding a concrete mixed-case hex string and re-encoding
the byte it denotes yields the string's lowercase form. -/
theorem hex_roundtrip_laws_witness :
    hexEncode (⟨[(171 : Byte)], rfl⟩ : ByteArr 1) = ['A', 'b'].map Char.toLower :=
  hex_roundtrip_laws.2.2.2 "mrtd" 1 ['A', 'b'] ⟨[(171 : Byte)], rfl⟩ rfl

/-- C6: a wrong character count yields `InvalidLength` with the field name and
the actual count; a correct-length string with a non-hex character yields
`InvalidHexValue` with the field name and the offending string; lowercase and
uppercase hex digits are both accepted on input. -/
theorem hexDecode_error_taxonomy (field : String) (n : Nat) (s : List Char) :
    (s.length ≠ 2 * n →
      hexDecode field n s = Except.error (MeasurementsError.invalidLength field s.length)) ∧
    (s.length = 2 * n → (∃ c ∈ s, fromHexDigit c = none) →
      hexDecode field n s =
        Except.error (MeasurementsError.invalidHexValue field (String.mk s))) ∧
    (∀ c ∈ lowerHexDigits, ∃ v, fromHexDigit c = some v) ∧
    (∀ c ∈ upperHexDigits, ∃ v, fromHexDigit c = some v) := by
  refine ⟨?_, ?_, by decide, by decide⟩
  · intro hlen
    exact hexDecode_of_badlen field n s hlen
  · intro hlen hbad
    exact hexDecode_of_none field n s hlen (decodePairs_eq_none_of_bad s hbad)

/-- Witness for C6: a concrete short string is rejected with `InvalidLength 1`
and a concrete correct-length string containing a non-hex character is
rejected with `InvalidHexValue` carrying that string. -/
theorem hexDecode_error_taxonomy_witness :
    hexDecode "rtmr0" 48 ['0'] = Except.error (MeasurementsError.invalidLength "rtmr0" 1) ∧
    hexDecode "rtmr1" 1 ['0', 'x'] =
      Except.error (MeasurementsError.invalidHexValue "rtmr1" (String.mk ['0', 'x'])) :=
  ⟨(hexDecode_error_taxonomy "rtmr0" 48 ['0']).1 (by decide),
   (hexDecode_error_taxonomy "rtmr1" 1 ['0', 'x']).2.1 rfl ⟨'x', by decide, rfl⟩⟩

/-- C1: on a verified report whose body is TD10, extraction succeeds and the
resulting `Measurements` has rtmr0/rtmr1/rtmr2/mrtd byte-for-byte equal to the
body's rt_mr0/rt_mr1/rt_mr2/mr_td, with no transformation or reordering. -/
theorem tryFrom_td10_copies_fields_verbatim (vr : VerifiedReport) (r : TDReport10)
    (h : vr.report = Report.td10 r) :
    Measurements.tryFromVerifiedReport vr =
      Except.ok
        { mrtd := r.mr_td, rtmr0 := r.rt_mr0, rtmr1 := r.rt_mr1, rtmr2 := r.rt_mr2 } := by
  simp [Measurements.tryFromVerifiedReport, h, Report.as_td10]

/-- Witness for C1: the extraction theorem applied to a concrete TD10 report. -/
theorem tryFrom_td10_copies_fields_verbatim_witness :
    Measurements.tryFromVerifiedReport sampleTd10Report =
      Except.ok
        { mrtd := fillArr 2 48, rtmr0 := fillArr 4 48
          rtmr1 := fillArr 5 48, rtmr2 := fillArr 6 48 } :=
  tryFrom_td10_copies_fields_verbatim sampleTd10Report sampleTd10 rfl

/-- C2: extraction returns the error `NoTd10Report` exactly when the report
body is not TD10, and in that case no `Measurements` value is produced. -/
theorem tryFrom_errors_iff_not_td10 (vr : VerifiedReport) :
    (Measurements.tryFromVerifiedReport vr = Except.error MeasurementsError.noTd10Report ↔
      ∀ r, vr.report ≠ Report.td10 r) ∧
    ((∀ r, vr.report ≠ Report.td10 r) →
      ∀ m, Measurements.tryFromVerifiedReport vr ≠ Except.ok m) := by
  constructor
  · cases hr : vr.report <;>
      simp [Measurements.tryFromVerifiedReport, Report.as_td10, hr]
  · intro hnone m
    cases hr : vr.report <;>
      simp [Measurements.tryFromVerifiedReport, Report.as_td10, hr]
    exact absurd hr (hnone _)

/-- Witness for C2: a concrete SGX-bodied report is rejected with
`NoTd10Report`. -/
theorem tryFrom_errors_iff_not_td10_witness :
    Measurements.tryFromVerifiedReport sampleSgxReport =
      Except.error MeasurementsError.noTd10Report :=
  (tryFrom_errors_iff_not_td10 sampleSgxReport).1.mpr
    (fun r h => by simp [sampleSgxReport] at h)

/-- Counterexample for C3: the claim that the hex-to-binary conversion "is a
fallible transformation that can surface HexCodec errors" is false of the
source: `impl From<MeasurementsHex> for Measurements` never produces an
error (its induced `TryFrom` has an uninhabited error type). -/
theorem hex_to_binary_conversion_never_fails : ¬ MeasurementsHexToBinaryCanFail := by
  rintro ⟨hex, e, hc⟩
  simp [Measurements.tryFromHex] at hc

/-- C3 (amended): the hex-to-binary struct conversion is total — it always
returns `Ok` of the unwrapped buffers — and the binary-to-hex conversion is
total as well; the HexCodec errors `InvalidLength` and `InvalidHexValue`
surface only when decoding hex strings into `HexBytes` buffers. -/
theorem conversions_total_and_codec_errors_at_string_level :
    (∀ hex : MeasurementsHex,
      Measurements.tryFromHex hex = Except.ok (Measurements.ofHex hex)) ∧
    (∀ m : Measurements,
      Measurements.ofHex (MeasurementsHex.ofMeasurements m) = m) ∧
    hexDecode "mrtd" 48 [] = Except.error (MeasurementsError.invalidLength "mrtd" 0) ∧
    hexDecode "mrtd" 1 ['g', '0'] =
      Except.error (MeasurementsError.invalidHexValue "mrtd" (String.mk ['g', '0'])) := by
  refine ⟨fun _ => rfl, fun _ => rfl, rfl, rfl⟩

/-- C4: converting a `Measurements` to `MeasurementsHex` and back yields the
original, field by field. -/
theorem measurements_hex_roundtrip (m : Measurements) :
    (Measurements.ofHex (MeasurementsHex.ofMeasurements m)).mrtd = m.mrtd ∧
    (Measurements.ofHex (MeasurementsHex.ofMeasurements m)).rtmr0 = m.rtmr0 ∧
    (Measurements.ofHex (MeasurementsHex.ofMeasurements m)).rtmr1 = m.rtmr1 ∧
    (Measurements.ofHex (MeasurementsHex.ofMeasurements m)).rtmr2 = m.rtmr2 :=
  ⟨rfl, rfl, rfl, rfl⟩

/-- C7: the default `Measurements` has every field equal to 48 zero bytes. -/
theorem measurements_default_all_zero :
    Measurements.default.mrtd.val = List.replicate 48 (0 : Byte) ∧
    Measurements.default.rtmr0.val = List.replicate 48 (0 : Byte) ∧
    Measurements.default.rtmr1.val = List.replicate 48 (0 : Byte) ∧
    Measurements.default.rtmr2.val = List.replicate 48 (0 : Byte) :=
  ⟨rfl, rfl, rfl, rfl⟩

/-- C9: the binary and hex defaults agree under conversion: converting
`MeasurementsHex.default` yields `Measurements.default`, and converting
`FullMeasurementsHex.default` yields all-zero registers and digests. -/
theorem defaults_agree_under_conversion :
    Measurements.ofHex MeasurementsHex.default = Measurements.default ∧
    (FullMeasurements.ofHex FullMeasurementsHex.default).rtmrs = Measurements.default ∧
    (FullMeasurements.ofHex FullMeasurementsHex.default).key_provider_event_digest =
      ByteArr.zero 48 ∧
    (FullMeasurements.ofHex FullMeasurementsHex.default).app_compose_hash_payload =
      ByteArr.zero 32 :=
  ⟨rfl, rfl, rfl, rfl⟩

/-- C10: the `FullMeasurements` / `FullMeasurementsHex` conversions are
mutually inverse in both directions. -/
theorem full_measurements_roundtrip_both_ways :
    (∀ f : FullMeasurements, FullMeasurements.ofHex (FullMeasurementsHex.ofFull f) = f) ∧
    (∀ h : FullMeasurementsHex, FullMeasurementsHex.ofFull (FullMeasurements.ofHex h) = h) :=
  ⟨fun _ => rfl, fun _ => rfl⟩

/-- A combined comparison is equality exactly when both parts are. -/
theorem ordering_then_eq_eq (o p : Ordering) :
    o.then p = Ordering.eq ↔ o = Ordering.eq ∧ p = Ordering.eq := by
  cases o <;> simp [Ordering.then]

/-- Swapping the sides of a combined comparison swaps strict outcomes. -/
theorem ordering_then_swap (o1 o2 p1 p2 : Ordering)
    (h1 : o1 = Ordering.gt ↔ p1 = Ordering.lt)
    (h1e : o1 = Ordering.eq ↔ p1 = Ordering.eq)
    (h2 : o2 = Ordering.gt ↔ p2 = Ordering.lt) :
    o1.then o2 = Ordering.gt ↔ p1.then p2 = Ordering.lt := by
  cases o1 <;> cases p1 <;> simp_all [Ordering.then]

/-- Byte comparison is equality exactly on equal bytes. -/
theorem byteCompare_eq_eq_iff (a b : Byte) : byteCompare a b = Ordering.eq ↔ a = b := by
  rw [Fin.ext_iff]
  unfold byteCompare
  split_ifs with h1 h2
  · constructor
    · intro h; cases h
    · intro h; omega
  · constructor
    · intro h; cases h
    · intro h; omega
  · constructor
    · intro h; omega
    · intro h; rfl

/-- Byte comparison answers greater-than exactly when the swap answers
less-than. -/
theorem byteCompare_gt_iff_lt (a b : Byte) :
    byteCompare a b = Ordering.gt ↔ byteCompare b a = Ordering.lt := by
  unfold byteCompare
  split_ifs <;> first | decide | omega

/-- Lexicographic byte-list comparison is equality exactly on equal lists. -/
theorem listByteCompare_eq_eq_iff : ∀ (x y : List Byte),
    listByteCompare x y = Ordering.eq ↔ x = y
  | [], [] => by simp [listByteCompare]
  | [], _ :: _ => by simp [listByteCompare]
  | _ :: _, [] => by simp [listByteCompare]
  | a :: xs, b :: ys => by
      have ih := listByteCompare_eq_eq_iff xs ys
      simp only [listByteCompare, ordering_then_eq_eq, byteCompare_eq_eq_iff, ih,
        List.cons.injEq]

/-- Lexicographic byte-list comparison answers greater-than exactly when the
swap answers less-than. -/
theorem listByteCompare_gt_iff_lt : ∀ (x y : List Byte),
    listByteCompare x y = Ordering.gt ↔ listByteCompare y x = Ordering.lt
  | [], [] => by simp [listByteCompare]
  | [], _ :: _ => by simp [listByteCompare]
  | _ :: _, [] => by simp [listByteCompare]
  | a :: xs, b :: ys => by
      have ih := listByteCompare_gt_iff_lt xs ys
      simp only [listByteCompare]
      cases hab : byteCompare a b with
      | lt =>
          have hba : byteCompare b a = Ordering.gt := (byteCompare_gt_iff_lt b a).mpr hab
          rw [hba]
          simp [Ordering.then]
      | eq =>
          have hab' : a = b := (byteCompare_eq_eq_iff a b).mp hab
          subst hab'
          have haa : byteCompare a a = Ordering.eq := (byteCompare_eq_eq_iff a a).mpr rfl
          rw [haa]
          simpa [Ordering.then] using ih
      | gt =>
          have hba : byteCompare b a = Ordering.lt := (byteCompare_gt_iff_lt a b).mp hab
          rw [hba]
          simp [Ordering.then]

/-- Buffer comparison is equality exactly on equal `HexBytes`. -/
theorem hexBytes_cmp_eq_iff {n : Nat} (a b : HexBytes n) :
    HexBytes.cmp a b = Ordering.eq ↔ a = b := by
  rw [HexBytes.cmp, listByteCompare_eq_eq_iff]
  constructor
  · intro h
    obtain ⟨⟨av, ha⟩⟩ := a
    obtain ⟨⟨bv, hb⟩⟩ := b
    simp only at h
    subst h
    rfl
  · rintro rfl; rfl

/-- Buffer comparison answers greater-than exactly when the swap answers
less-than. -/
theorem hexBytes_cmp_gt_iff_lt {n : Nat} (a b : HexBytes n) :
    HexBytes.cmp a b = Ordering.gt ↔ HexBytes.cmp b a = Ordering.lt :=
  listByteCompare_gt_iff_lt _ _

/-- The struct comparison is equality exactly on equal `MeasurementsHex`. -/
theorem measurementsHex_cmp_eq_iff (a b : MeasurementsHex) :
    MeasurementsHex.cmp a b = Ordering.eq ↔ a = b := by
  rw [MeasurementsHex.cmp, ordering_then_eq_eq, ordering_then_eq_eq, ordering_then_eq_eq,
    hexBytes_cmp_eq_iff, hexBytes_cmp_eq_iff, hexBytes_cmp_eq_iff, hexBytes_cmp_eq_iff]
  constructor
  · rintro ⟨h1, h2, h3, h4⟩
    obtain ⟨am, a0, a1, a2⟩ := a
    obtain ⟨bm, b0, b1, b2⟩ := b
    simp only at h1 h2 h3 h4
    subst h1; subst h2; subst h3; subst h4
    rfl
  · rintro rfl
    exact ⟨rfl, rfl, rfl, rfl⟩

/-- The struct comparison answers greater-than exactly when the swap answers
less-than. -/
theorem measurementsHex_cmp_gt_iff_lt (a b : MeasurementsHex) :
    MeasurementsHex.cmp a b = Ordering.gt ↔ MeasurementsHex.cmp b a = Ordering.lt := by
  unfold MeasurementsHex.cmp
  apply ordering_then_swap
  · exact hexBytes_cmp_gt_iff_lt _ _
  · rw [hexBytes_cmp_eq_iff, hexBytes_cmp_eq_iff]; exact eq_comm
  · apply ordering_then_swap
    · exact hexBytes_cmp_gt_iff_lt _ _
    · rw [hexBytes_cmp_eq_iff, hexBytes_cmp_eq_iff]; exact eq_comm
    · apply ordering_then_swap
      · exact hexBytes_cmp_gt_iff_lt _ _
      · rw [hexBytes_cmp_eq_iff, hexBytes_cmp_eq_iff]; exact eq_comm
      · exact hexBytes_cmp_gt_iff_lt _ _

/-- C8: the ordering on `MeasurementsHex` is total — for any two values
exactly one of less-than, equality, greater-than holds — and the comparison
is the lexicographic combination of the fields in their declared order mrtd,
rtmr0, rtmr1, rtmr2. -/
theorem measurementsHex_order_total_lex (a b : MeasurementsHex) :
    ((MeasurementsHex.ltOrd a b ∧ ¬ a = b ∧ ¬ MeasurementsHex.ltOrd b a) ∨
     (¬ MeasurementsHex.ltOrd a b ∧ a = b ∧ ¬ MeasurementsHex.ltOrd b a) ∨
     (¬ MeasurementsHex.ltOrd a b ∧ ¬ a = b ∧ MeasurementsHex.ltOrd b a)) ∧
    MeasurementsHex.cmp a b =
      (HexBytes.cmp a.mrtd b.mrtd).then
        ((HexBytes.cmp a.rtmr0 b.rtmr0).then
          ((HexBytes.cmp a.rtmr1 b.rtmr1).then (HexBytes.cmp a.rtmr2 b.rtmr2))) := by
  refine ⟨?_, rfl⟩
  unfold MeasurementsHex.ltOrd
  cases hab : MeasurementsHex.cmp a b with
  | lt =>
      left
      refine ⟨rfl, ?_, ?_⟩
      · intro he; subst he
        rw [(measurementsHex_cmp_eq_iff a a).mpr rfl] at hab
        cases hab
      · have hba : MeasurementsHex.cmp b a = Ordering.gt :=
          (measurementsHex_cmp_gt_iff_lt b a).mpr hab
        simp [hba]
  | eq =>
      right; left
      have he : a = b := (measurementsHex_cmp_eq_iff a b).mp hab
      refine ⟨by simp [hab], he, ?_⟩
      subst he
      simp [(measurementsHex_cmp_eq_iff a a).mpr rfl]
  | gt =>
      right; right
      have hba : MeasurementsHex.cmp b a = Ordering.lt :=
        (measurementsHex_cmp_gt_iff_lt a b).mp hab
      refine ⟨by simp [hab], ?_, hba⟩
      intro he; subst he
      rw [(measurementsHex_cmp_eq_iff a a).mpr rfl] at hab
      cases hab
